import Mathlib

/-!
Verification of the multi-dataset weighting and column-harmonization
pipeline of `fact_plots` (script `plot_data_mc_compare.py`).

The embedding models:
  - HDF5 stores as association lists from table names to data frames;
  - data frames (`DF`) as a column-name list plus rows of `PVal` cells,
    where `PVal` distinguishes finite rationals, positive and negative
    infinity, the missing marker NaN, and strings (floats are embedded
    as rationals, which is faithful for the comparisons and equality
    tests the code performs);
  - `getCommonColumns`, `loadData`, `calcDataRange` and the body of
    `main` from the source, with Python exceptions rendered as `Except`
    and the process-terminating error paths as error values;
  - the weight model, which the provided source files do not contain,
    modelled from the specification where a claim needs it.
-/

/-- Cell value of a tabular store: a finite float (embedded as a
rational), positive infinity (`np.inf`), negative infinity
(`-np.inf`), the missing marker (`np.nan`), or a string. -/
inductive PVal where
  | num (q : ℚ)
  | pinf
  | ninf
  | nan
  | str (s : String)
deriving DecidableEq

/-- Data frame: a list of column names and rows of cells, each row
aligned with the column list. -/
structure DF where
  cols : List String
  rows : List (List PVal)
deriving DecidableEq

/-- HDF5 file: association list from table names to tables; the keys of
a table are its column names. -/
structure HFile where
  tables : List (String × DF)
deriving DecidableEq

/-- Dataset descriptor, one `--datatupels` entry of the command line:
path to the HDF5 file, table name, scale, display label. -/
structure Dataset where
  datafile : String
  tablename : String
  scale : ℚ
  label : String
deriving DecidableEq

/-- Error outcomes of the run.  `osError` models `h5py.File` failing to
open a path, `keyError` an uncaught Python `KeyError` (its payload is
the missing key), `dataAccessError` the handled `KeyError` of
`loadData` that logs the missing table, the file path and the list of
actually available table names before `exit()`, and `typeError` the
`TypeError` of `sorted(None)`. -/
inductive RunError where
  | osError (path : String)
  | keyError (key : String)
  | dataAccessError (tablename : String) (datafile : String) (availableKeys : List String)
  | typeError
deriving DecidableEq

/-- One update step of the running minimum and maximum in
`calcDataRange`: first `if df[key].max() > max_val`, then
`if df[key].min() < min_val`.  The initial values `float("inf")` and
`float("-inf")` are rendered as the top and bottom elements, and the
column `df[key]` as its list of rational values, so `Series.max`
becomes `List.maximum`. -/
def calcRangeStep (acc : WithTop ℚ × WithBot ℚ) (df : List ℚ) : WithTop ℚ × WithBot ℚ :=
  let mx := if acc.2 < df.maximum then df.maximum else acc.2
  let mn := if (df.minimum : WithTop ℚ) < acc.1 then (df.minimum : WithTop ℚ) else acc.1
  (mn, mx)

/-- Model of `calcDataRange(df_list, key)`: each list entry is the
`df[key]` column of one frame; returns `(min_val, max_val)` starting
from `(float("inf"), float("-inf"))`. -/
def calcDataRange (df_list : List (List ℚ)) : WithTop ℚ × WithBot ℚ :=
  df_list.foldl calcRangeStep (⊤, ⊥)

/-- Composition of the two store accesses the script performs per
dataset: open the file at the dataset path with `h5py.File`, then
select its named table. -/
def tableOf (fs : String → Option HFile) (d : Dataset) : Option DF :=
  (fs d.datafile).bind (fun f => f.tables.lookup d.tablename)

/-- Loop of `getCommonColumns`: `common_columns` starts as Python
`None`, becomes the column set of the first file, and is then
intersected with each later file.  Opening a missing path raises
`OSError` in `h5py.File`; a missing table name raises an uncaught
`KeyError` in the subscript `f[tablename]`. -/
def getCommonColumnsAux (fs : String → Option HFile) :
    List Dataset → Option (List String) → Except RunError (Option (List String))
  | [], common => .ok common
  | d :: rest, common =>
    match fs d.datafile with
    | none => .error (.osError d.datafile)
    | some f =>
      match f.tables.lookup d.tablename with
      | none => .error (.keyError d.tablename)
      | some t =>
        match common with
        | none => getCommonColumnsAux fs rest (some t.cols)
        | some cc => getCommonColumnsAux fs rest (some (cc.filter (fun c => t.cols.contains c)))

/-- Model of `getCommonColumns(datatupels)`: loop over the dataset
descriptors and intersect the key sets of their named tables, `None`
when the descriptor list is empty. -/
def getCommonColumns (fs : String → Option HFile) (dats : List Dataset) :
    Except RunError (Option (List String)) :=
  getCommonColumnsAux fs dats none

/-- Python string comparison on character lists: lexicographic by code
point, written structurally so that concrete cases evaluate. -/
def pyListLe : List Char → List Char → Bool
  | [], _ => true
  | _ :: _, [] => false
  | a :: as, b :: bs =>
    if a = b then pyListLe as bs else decide (a < b)

def pyStrLe (a b : String) : Bool := pyListLe a.data b.data

/-- Propositional form of `pyStrLe`: the order Python `sorted` uses on
strings. -/
def pyLeRel (a b : String) : Prop := pyStrLe a b = true

instance : DecidableRel pyLeRel :=
  fun a b => inferInstanceAs (Decidable (pyStrLe a b = true))

/-- Python `sorted` on strings compares lexicographically by code
point.  The sorted result is the unique ordered permutation of its
input, so insertion sort is a faithful model of `sorted(common_keys)`
at line 121. -/
def pySorted (l : List String) : List String :=
  l.insertionSort pyLeRel

/-- Replacement performed by `df.replace(np.inf, np.nan)`: only
positive infinity is matched; negative infinity is left in place. -/
def PVal.replaceInf : PVal → PVal
  | .pinf => .nan
  | v => v

def PVal.isNan : PVal → Bool
  | .nan => true
  | _ => false

/-- Non-finite numeric cell: either infinity, or the missing marker. -/
def PVal.isNonFinite : PVal → Bool
  | .pinf => true
  | .ninf => true
  | .nan => true
  | _ => false

def DF.replaceInfNan (df : DF) : DF :=
  ⟨df.cols, df.rows.map (fun r => r.map PVal.replaceInf)⟩

/-- Model of `df.dropna(inplace=True)`: drop every row containing the
missing marker. -/
def DF.dropna (df : DF) : DF :=
  ⟨df.cols, df.rows.filter (fun r => !(r.any PVal.isNan))⟩

/-- Model of the pandas column assignment `df[name] = v`: overwrite
the column if it exists, otherwise append it on the right. -/
def DF.setColumn (df : DF) (name : String) (v : PVal) : DF :=
  if name ∈ df.cols then
    ⟨df.cols, df.rows.map (fun r => r.set (df.cols.findIdx (fun c => c == name)) v)⟩
  else ⟨df.cols ++ [name], df.rows.map (fun r => r ++ [v])⟩

/-- Row predicate for `df.query(cuts)`: sees the column names and the
row cells and decides whether the row is kept. -/
def RowPred : Type := List String → List PVal → Bool

def DF.query (df : DF) (p : RowPred) : DF :=
  ⟨df.cols, df.rows.filter (p df.cols)⟩

/-- Part of a character list strictly before the first occurrence of
the marker substring, the whole list when the marker is absent: the
head of a Python `split(marker)`. -/
def splitBeforeMarker (marker : List Char) : List Char → List Char
  | [] => []
  | c :: cs =>
    if marker.isPrefixOf (c :: cs) then [] else c :: splitBeforeMarker marker cs

/-- Suffix of a character list after its last slash: the segment
`os.path.basename` returns. -/
def basenameChars (cs : List Char) : List Char :=
  cs.foldl (fun acc c => if c = '/' then [] else acc ++ [c]) []

/-- Model of `os.path.basename(datafile).split(".hdf")[0]`. -/
def basenameNoHdf (path : String) : String :=
  String.mk (splitBeforeMarker ".hdf".data (basenameChars path.data))

/-- Model of `fact.io.read_data(datafile, tablename, columns)`: open
the file, select the table, project onto the requested columns
(`None` requests all).  A missing table or column raises
`KeyError`. -/
def read_data (fs : String → Option HFile) (datafile : String) (tablename : String)
    (columns : Option (List String)) : Except RunError DF :=
  match fs datafile with
  | none => .error (.osError datafile)
  | some f =>
    match f.tables.lookup tablename with
    | none => .error (.keyError tablename)
    | some t =>
      match columns with
      | none => .ok t
      | some cs =>
        if cs.all (fun c => t.cols.contains c) then
          .ok ⟨cs, t.rows.map (fun r =>
            cs.map (fun c => r.getD (t.cols.findIdx (fun c2 => c2 == c)) .nan))⟩
        else .error (.keyError ((cs.filter (fun c => !t.cols.contains c)).headD ""))

/-- Per-dataset body of the `loadData` loop (lines 99 to 115 of the
script): read the requested columns; on `KeyError` log the missing
table name, the file path and the list of available table names and
terminate via `exit()`; otherwise replace positive infinity by the
missing marker, drop rows with missing values, attach the synthetic
`filename` column, and apply the cuts. -/
def loadDataStep (fs : String → Option HFile) (columns : Option (List String))
    (cuts : Option RowPred) (d : Dataset) : Except RunError DF :=
  match read_data fs d.datafile d.tablename columns with
  | .error (.keyError k) =>
    match fs d.datafile with
    | some f => .error (.dataAccessError d.tablename d.datafile (f.tables.map Prod.fst))
    | none => .error (.keyError k)
  | .error e => .error e
  | .ok df0 =>
    let df1 := df0.replaceInfNan
    let df2 := df1.dropna
    let df3 := df2.setColumn "filename" (.str (basenameNoHdf d.datafile))
    match cuts with
    | some p => .ok (df3.query p)
    | none => .ok df3

/-- Result tuple of `loadData`: the loaded frames, the file paths,
scales and labels in loop order, and the sorted common keys. -/
structure LoadResult where
  df_list : List DF
  datafiles : List String
  scales : List ℚ
  labels : List String
  common_keys : List String
deriving DecidableEq

/-- Common-keys update of the `loadData` loop: at `i == 0` the keys of
the first frame, afterwards the intersection with `df.keys()`. -/
def nextKeys : Option (List String) → DF → Option (List String)
  | none, df => some df.cols
  | some cc, df => some (cc.filter (fun c => df.cols.contains c))

/-- Loop of `loadData`: per dataset run `loadDataStep`, and fold the
common keys, starting at Python `None` and intersecting with
`df.keys()` of each loaded frame. -/
def loadDataAux (fs : String → Option HFile) (columns : Option (List String))
    (cuts : Option RowPred) :
    List Dataset → Option (List String) → Except RunError (List DF × Option (List String))
  | [], ck => .ok ([], ck)
  | d :: rest, ck =>
    match loadDataStep fs columns cuts d with
    | .error e => .error e
    | .ok df =>
      match loadDataAux fs columns cuts rest (nextKeys ck df) with
      | .error e => .error e
      | .ok (dfs, ckF) => .ok (df :: dfs, ckF)

/-- Model of `loadData(datatupels, columns, cuts)`.  With an empty
descriptor list the final `sorted(common_keys)` is `sorted(None)`,
a `TypeError`. -/
def loadData (fs : String → Option HFile) (dats : List Dataset)
    (columns : Option (List String)) (cuts : Option RowPred) :
    Except RunError LoadResult :=
  match loadDataAux fs columns cuts dats none with
  | .error e => .error e
  | .ok (_, none) => .error .typeError
  | .ok (dfs, some ck) =>
    .ok ⟨dfs, dats.map (fun d => d.datafile), dats.map (fun d => d.scale),
      dats.map (fun d => d.label), pySorted ck⟩

/-- Model of `set(common_keys).difference(ignorekeys)` in `main`:
`ignorekeys` is a string option, and Python set difference iterates
it, so its elements are the individual characters of the string as
one-character strings. -/
def applyIgnoreKeys (keys : List String) (ignorekeys : String) : List String :=
  keys.filter (fun k => !((ignorekeys.data.map String.singleton).contains k))

/-- Abstraction of the per-column plotting loop of `main` (lines 180
to 278).  `keys` and `labels` are the common keys and dataset labels;
the predicates abstract the data-dependent tests: `skipTuple` is the
tuple-content skip at line 184, `inDefaultPlots` the membership test
at line 191, `optionFalse` the `plot_option is False` skip, and
`histOk key label` tells whether `histpoints` succeeds for that pair
(its failure is the per-dataset `except Exception` handler). -/
structure PlotEnv where
  keys : List String
  labels : List String
  inDefaultPlots : String → Bool
  optionFalse : String → Bool
  skipTuple : String → Bool
  histOk : String → String → Bool

/-- One column reaches the plotting body when it is not skipped as a
tuple column, is listed in `default_plots`, and its entry is not
`False`. -/
def plottable (env : PlotEnv) (k : String) : Bool :=
  !env.skipTuple k && env.inDefaultPlots k && !env.optionFalse k

/-- Column loop of `main`: for each plottable column, each dataset
whose `histpoints` call raises gets a logged warning; the page for
the column is saved afterwards in all cases (the `savefig` calls at
lines 263 and 267 are outside the per-dataset try block).  Returns
the emitted pages and the recorded warnings. -/
def plotKeys (env : PlotEnv) : List String → List String × List (String × String)
  | [] => ([], [])
  | k :: rest =>
    let acc := plotKeys env rest
    if env.skipTuple k then acc
    else if env.inDefaultPlots k then
      if env.optionFalse k then acc
      else (k :: acc.1,
        ((env.labels.filter (fun l => !env.histOk k l)).map (fun l => (k, l))) ++ acc.2)
    else acc

def runPlotLoop (env : PlotEnv) : List String × List (String × String) :=
  plotKeys env env.keys

/-- Model of the body of `main` after argument parsing: reconcile the
columns, load the data, drop the ignore keys, run the plotting loop.
Any error of the first two phases aborts the run before any page is
emitted. -/
def mainModel (fs : String → Option HFile) (dats : List Dataset)
    (cuts : Option RowPred) (ignorekeys : Option String)
    (inDefaultPlots : String → Bool) (optionFalse : String → Bool)
    (skipTuple : String → Bool) (histOk : String → String → Bool) :
    Except RunError (List String × List (String × String)) :=
  match getCommonColumns fs dats with
  | .error e => .error e
  | .ok ck =>
    match loadData fs dats ck cuts with
    | .error e => .error e
    | .ok r =>
      let keys := match ignorekeys with
        | none => r.common_keys
        | some s => applyIgnoreKeys r.common_keys s
      .ok (runPlotLoop ⟨keys, r.labels, inDefaultPlots, optionFalse, skipTuple, histOk⟩)

/-- Error taxonomy of the weight model, from the specification. -/
inductive WError where
  | ConfigurationError (msg : String)
deriving DecidableEq

/-- Observation run record, with its `ontime` field in seconds. -/
structure ObsRun where
  ontime : ℚ
deriving DecidableEq

/-- Modelled from the spec: the weight model is not among the provided
source files.  Per section 4.2, for `kind = observations` the weight
is 1 / (total on-time in hours), the on-time being the sum of the
`ontime` field over every recorded run; a zero on-time sum signals
`ConfigurationError` instead of dividing by zero. -/
def observationWeight (runs : List ObsRun) : Except WError ℚ :=
  let total := (runs.map ObsRun.ontime).sum
  if total = 0 then .error (.ConfigurationError "total ontime is zero")
  else .ok (1 / (total / 3600))

/-- Weight table state: memoized per-label weights plus a counter of
energy-column reads (each fresh weight computation reads the energy
column and evaluates the flux integral exactly once). -/
structure WeightState where
  cache : List (String × ℚ)
  energyReads : ℕ
deriving DecidableEq

/-- Modelled from the spec: the weight model is not among the provided
source files.  Per sections 3 and 4.2, `weight_for` is a read-through
memoized lookup: on a cache miss the weight is computed (one energy
read and flux integral), stored under the dataset label and returned;
on a hit the cached value is returned with no read. -/
def weight_for (compute : String → ℚ) (label : String) (st : WeightState) :
    ℚ × WeightState :=
  match st.cache.lookup label with
  | some w => (w, st)
  | none => (compute label, ⟨(label, compute label) :: st.cache, st.energyReads + 1⟩)

/-- Example store: two files sharing only the column `energy` in their
`events` tables. -/
def tableA : DF := ⟨["energy", "width"], []⟩

def tableB : DF := ⟨["energy", "length"], []⟩

def fileA : HFile := ⟨[("events", tableA)]⟩

def fileB : HFile := ⟨[("events", tableB)]⟩

def fsW : String → Option HFile := fun p =>
  if p = "a.hdf5" then some fileA else if p = "b.hdf5" then some fileB else none

def datA : Dataset := ⟨"a.hdf5", "events", 1, "data"⟩

def datB : Dataset := ⟨"b.hdf5", "events", 1, "mc"⟩

/-- Example store: one file whose `events` table holds a single column
`x` with a finite value, a negative infinity, a positive infinity and
a missing value. -/
def tableC : DF := ⟨["x"], [[.num 1], [.ninf], [.pinf], [.nan]]⟩

def fileC : HFile := ⟨[("events", tableC)]⟩

def fsC : String → Option HFile := fun p => if p = "c.hdf5" then some fileC else none

def datC : Dataset := ⟨"c.hdf5", "events", 1, "data"⟩

/-- Example store: one file whose `events` table has columns whose
case-insensitive and case-sensitive orders differ. -/
def tableZ : DF := ⟨["alpha", "Zeta"], []⟩

def fileZ : HFile := ⟨[("events", tableZ)]⟩

def fsZ : String → Option HFile := fun p => if p = "z.hdf5" then some fileZ else none

def datZ : Dataset := ⟨"z.hdf5", "events", 1, "data"⟩

/-- Example store: a file that has a `runs` table but no `events`
table, so the named table of its descriptor is absent. -/
def fileR : HFile := ⟨[("runs", ⟨["ontime"], []⟩)]⟩

def fsR : String → Option HFile := fun p => if p = "a.hdf5" then some fileR else none

def datR : Dataset := ⟨"a.hdf5", "events", 1, "data"⟩

theorem pyListLe_trans : ∀ as bs cs : List Char,
    pyListLe as bs = true → pyListLe bs cs = true → pyListLe as cs = true := by
  intro as
  induction as with
  | nil => intro bs cs h1 h2; rfl
  | cons a as ih =>
      intro bs cs h1 h2
      cases bs with
      | nil => simp [pyListLe] at h1
      | cons b bs =>
          cases cs with
          | nil => simp [pyListLe] at h2
          | cons c cs =>
              simp only [pyListLe] at h1 h2 ⊢
              by_cases hab : a = b
              · subst hab
                rw [if_pos rfl] at h1
                by_cases hbc : a = c
                · subst hbc
                  rw [if_pos rfl] at h2 ⊢
                  exact ih bs cs h1 h2
                · rw [if_neg hbc] at h2 ⊢
                  exact h2
              · rw [if_neg hab] at h1
                by_cases hbc : b = c
                · subst hbc
                  rw [if_neg hab]
                  exact h1
                · rw [if_neg hbc] at h2
                  have hlt : a < c := lt_trans (of_decide_eq_true h1) (of_decide_eq_true h2)
                  rw [if_neg (ne_of_lt hlt)]
                  exact decide_eq_true hlt

theorem pyListLe_total : ∀ as bs : List Char,
    pyListLe as bs = true ∨ pyListLe bs as = true := by
  intro as
  induction as with
  | nil => intro bs; exact .inl rfl
  | cons a as ih =>
      intro bs
      cases bs with
      | nil => exact .inr rfl
      | cons b bs =>
          simp only [pyListLe]
          by_cases hab : a = b
          · subst hab
            rw [if_pos rfl, if_pos rfl]
            exact ih bs
          · rcases lt_or_gt_of_ne hab with hlt | hgt
            · exact .inl (by rw [if_neg hab]; exact decide_eq_true hlt)
            · refine .inr ?_
              rw [if_neg (Ne.symm hab)]
              exact decide_eq_true hgt

theorem pyListLe_antisymm : ∀ as bs : List Char,
    pyListLe as bs = true → pyListLe bs as = true → as = bs := by
  intro as
  induction as with
  | nil =>
      intro bs h1 h2
      cases bs with
      | nil => rfl
      | cons b bs => simp [pyListLe] at h2
  | cons a as ih =>
      intro bs h1 h2
      cases bs with
      | nil => simp [pyListLe] at h1
      | cons b bs =>
          simp only [pyListLe] at h1 h2
          by_cases hab : a = b
          · subst hab
            rw [if_pos rfl] at h1 h2
            rw [ih bs h1 h2]
          · rw [if_neg hab] at h1
            rw [if_neg (Ne.symm hab)] at h2
            exact absurd (of_decide_eq_true h2) (lt_asymm (of_decide_eq_true h1))

theorem pyLeRel_trans (a b c : String) : pyLeRel a b → pyLeRel b c → pyLeRel a c :=
  fun h1 h2 => pyListLe_trans a.data b.data c.data h1 h2

theorem pyLeRel_total (a b : String) : pyLeRel a b ∨ pyLeRel b a :=
  pyListLe_total a.data b.data

theorem pyLeRel_antisymm (a b : String) : pyLeRel a b → pyLeRel b a → a = b := by
  intro h1 h2
  exact String.ext (pyListLe_antisymm a.data b.data h1 h2)

theorem pySorted_sorted (l : List String) : List.Sorted pyLeRel (pySorted l) :=
  @List.sorted_insertionSort String pyLeRel _ ⟨pyLeRel_total⟩ ⟨pyLeRel_trans⟩ l

theorem pySorted_perm (l : List String) : List.Perm (pySorted l) l :=
  List.perm_insertionSort pyLeRel l

theorem pySorted_perm_eq (l l2 : List String) (hp : List.Perm l l2) :
    pySorted l = pySorted l2 :=
  @List.eq_of_perm_of_sorted String pyLeRel ⟨pyLeRel_antisymm⟩ _ _
    ((pySorted_perm l).trans (hp.trans (pySorted_perm l2).symm))
    (pySorted_sorted l) (pySorted_sorted l2)

theorem getCommonColumnsAux_some_spec (fs : String → Option HFile) :
    ∀ (dats : List Dataset) (cc s : List String),
      getCommonColumnsAux fs dats (some cc) = .ok (some s) →
      ∀ c : String,
        c ∈ s ↔ (c ∈ cc ∧ ∀ d ∈ dats, ∀ t, tableOf fs d = some t → c ∈ t.cols) := by
  intro dats
  induction dats with
  | nil =>
      intro cc s h c
      simp only [getCommonColumnsAux, Except.ok.injEq, Option.some.injEq] at h
      subst h
      simp
  | cons d rest ih =>
      intro cc s h c
      cases hfs : fs d.datafile with
      | none => simp [getCommonColumnsAux, hfs] at h
      | some f =>
          cases hlk : f.tables.lookup d.tablename with
          | none => simp [getCommonColumnsAux, hfs, hlk] at h
          | some t =>
              simp only [getCommonColumnsAux, hfs, hlk] at h
              have spec := ih (cc.filter (fun c => t.cols.contains c)) s h c
              rw [List.mem_filter] at spec
              rw [spec, List.forall_mem_cons]
              have hd : (∀ t2, tableOf fs d = some t2 → c ∈ t2.cols) ↔ c ∈ t.cols := by
                simp [tableOf, hfs, hlk]
              rw [hd]
              simp only [List.contains, List.elem_eq_mem, decide_eq_true_eq]
              tauto

/-- Claim C1: for every successful reconciliation over a non-empty
sequence of dataset descriptors (success with a non-`None` result
implies non-emptiness), a column name is in the result if and only if
it is among the keys of every dataset named table. -/
theorem getCommonColumns_intersection (fs : String → Option HFile) (dats : List Dataset)
    (s : List String) (h : getCommonColumns fs dats = .ok (some s)) (c : String) :
    c ∈ s ↔ ∀ d ∈ dats, ∀ t, tableOf fs d = some t → c ∈ t.cols := by
  cases dats with
  | nil =>
      exfalso
      simp [getCommonColumns, getCommonColumnsAux] at h
  | cons d rest =>
      cases hfs : fs d.datafile with
      | none => simp [getCommonColumns, getCommonColumnsAux, hfs] at h
      | some f =>
          cases hlk : f.tables.lookup d.tablename with
          | none => simp [getCommonColumns, getCommonColumnsAux, hfs, hlk] at h
          | some t =>
              simp only [getCommonColumns, getCommonColumnsAux, hfs, hlk] at h
              have spec := getCommonColumnsAux_some_spec fs rest t.cols s h c
              rw [spec, List.forall_mem_cons]
              have hd : (∀ t2, tableOf fs d = some t2 → c ∈ t2.cols) ↔ c ∈ t.cols := by
                simp [tableOf, hfs, hlk]
              rw [hd]

/-- Claim C1, witness: on two concrete files sharing exactly the
column `energy`, the reconciled set is `[energy]` and the theorem
instantiates at it. -/
theorem getCommonColumns_intersection_witness :
    "energy" ∈ ["energy"] ↔
      ∀ d ∈ [datA, datB], ∀ t, tableOf fsW d = some t → "energy" ∈ t.cols :=
  getCommonColumns_intersection fsW [datA, datB] ["energy"] (by rfl) "energy"

theorem DF.setColumn_mem_cols (df : DF) (name : String) (v : PVal) :
    name ∈ (df.setColumn name v).cols := by
  by_cases hmem : name ∈ df.cols
  · simp [DF.setColumn, hmem]
  · simp [DF.setColumn, hmem]

theorem DF.setColumn_values (df : DF) (name : String) (v : PVal) :
    ∀ r ∈ (df.setColumn name v).rows, ∀ x ∈ r, x = v ∨ ∃ r0 ∈ df.rows, x ∈ r0 := by
  intro r hr x hx
  by_cases hmem : name ∈ df.cols
  · simp only [DF.setColumn, if_pos hmem, List.mem_map] at hr
    obtain ⟨r0, hr0, hset⟩ := hr
    subst hset
    rcases List.mem_or_eq_of_mem_set hx with h1 | h2
    · exact .inr ⟨r0, hr0, h1⟩
    · exact .inl h2
  · simp only [DF.setColumn, if_neg hmem, List.mem_map] at hr
    obtain ⟨r0, hr0, happ⟩ := hr
    subst happ
    rcases List.mem_append.mp hx with h1 | h2
    · exact .inr ⟨r0, hr0, h1⟩
    · exact .inl (by simpa using h2)

theorem DF.clean_values (df0 : DF) :
    ∀ r ∈ df0.replaceInfNan.dropna.rows, ∀ v ∈ r, v ≠ PVal.nan ∧ v ≠ PVal.pinf := by
  intro r hr v hv
  simp only [DF.replaceInfNan, DF.dropna, List.mem_filter, List.mem_map] at hr
  obtain ⟨⟨r0, hr0, hmap⟩, hno⟩ := hr
  subst hmap
  rw [Bool.not_eq_eq_eq_not, Bool.not_true, List.any_eq_false] at hno
  constructor
  · intro hEq
    subst hEq
    exact hno _ hv (by simp [PVal.isNan])
  · intro hEq
    subst hEq
    obtain ⟨w, _, hwEq⟩ := List.mem_map.mp hv
    cases w <;> simp [PVal.replaceInf] at hwEq

theorem loadDataStep_ok_shape (fs : String → Option HFile) (columns : Option (List String))
    (cuts : Option RowPred) (d : Dataset) (df : DF)
    (h : loadDataStep fs columns cuts d = .ok df) :
    ∃ df0, read_data fs d.datafile d.tablename columns = .ok df0 ∧
      ((∃ p, cuts = some p ∧
          df = ((df0.replaceInfNan.dropna.setColumn "filename"
            (.str (basenameNoHdf d.datafile))).query p)) ∨
        (cuts = none ∧
          df = df0.replaceInfNan.dropna.setColumn "filename"
            (.str (basenameNoHdf d.datafile)))) := by
  cases hrd : read_data fs d.datafile d.tablename columns with
  | error e =>
      exfalso
      cases e with
      | keyError k =>
          cases hfs : fs d.datafile with
          | none => simp [loadDataStep, hrd, hfs] at h
          | some f => simp [loadDataStep, hrd, hfs] at h
      | osError p => simp [loadDataStep, hrd] at h
      | dataAccessError a b c => simp [loadDataStep, hrd] at h
      | typeError => simp [loadDataStep, hrd] at h
  | ok df0 =>
      refine ⟨df0, rfl, ?_⟩
      cases cuts with
      | some p =>
          simp only [loadDataStep, hrd, Except.ok.injEq] at h
          exact .inl ⟨p, rfl, h.symm⟩
      | none =>
          simp only [loadDataStep, hrd, Except.ok.injEq] at h
          exact .inr ⟨rfl, h.symm⟩

theorem loadDataStep_filename (fs : String → Option HFile) (columns : Option (List String))
    (cuts : Option RowPred) (d : Dataset) (df : DF)
    (h : loadDataStep fs columns cuts d = .ok df) : "filename" ∈ df.cols := by
  obtain ⟨df0, _, hshape⟩ := loadDataStep_ok_shape fs columns cuts d df h
  rcases hshape with ⟨p, _, rfl⟩ | ⟨_, rfl⟩
  · simpa [DF.query] using DF.setColumn_mem_cols df0.replaceInfNan.dropna "filename" _
  · exact DF.setColumn_mem_cols df0.replaceInfNan.dropna "filename" _

theorem loadDataStep_no_nonfinite (fs : String → Option HFile) (columns : Option (List String))
    (cuts : Option RowPred) (d : Dataset) (df : DF)
    (h : loadDataStep fs columns cuts d = .ok df) :
    ∀ r ∈ df.rows, ∀ v ∈ r, v ≠ PVal.nan ∧ v ≠ PVal.pinf := by
  obtain ⟨df0, _, hshape⟩ := loadDataStep_ok_shape fs columns cuts d df h
  have setc : ∀ r ∈ (df0.replaceInfNan.dropna.setColumn "filename"
      (.str (basenameNoHdf d.datafile))).rows, ∀ v ∈ r, v ≠ PVal.nan ∧ v ≠ PVal.pinf := by
    intro r hr v hv
    rcases DF.setColumn_values df0.replaceInfNan.dropna "filename" _ r hr v hv with
      hEq | ⟨r0, hr0, hvr0⟩
    · subst hEq
      exact ⟨by simp, by simp⟩
    · exact DF.clean_values df0 r0 hr0 v hvr0
  rcases hshape with ⟨p, _, rfl⟩ | ⟨_, rfl⟩
  · intro r hr v hv
    have hr2 : r ∈ (df0.replaceInfNan.dropna.setColumn "filename"
        (.str (basenameNoHdf d.datafile))).rows := by
      simpa [DF.query] using (List.mem_filter.mp hr).1
    exact setc r hr2 v hv
  · exact setc

theorem loadDataAux_cons_inv (fs : String → Option HFile) (columns : Option (List String))
    (cuts : Option RowPred) (d : Dataset) (rest : List Dataset) (ck : Option (List String))
    (dfs : List DF) (ckF : Option (List String))
    (h : loadDataAux fs columns cuts (d :: rest) ck = .ok (dfs, ckF)) :
    ∃ df1 dfs2, loadDataStep fs columns cuts d = .ok df1 ∧
      loadDataAux fs columns cuts rest (nextKeys ck df1) = .ok (dfs2, ckF) ∧
      dfs = df1 :: dfs2 := by
  cases hstep : loadDataStep fs columns cuts d with
  | error e => simp [loadDataAux, hstep] at h
  | ok df1 =>
      cases haux : loadDataAux fs columns cuts rest (nextKeys ck df1) with
      | error e => simp [loadDataAux, hstep, haux] at h
      | ok pr =>
          obtain ⟨dfs2, ckF2⟩ := pr
          simp only [loadDataAux, hstep, haux, Except.ok.injEq, Prod.mk.injEq] at h
          obtain ⟨h1, h2⟩ := h
          exact ⟨df1, dfs2, rfl, h2 ▸ haux, h1.symm⟩

theorem loadDataAux_no_nonfinite (fs : String → Option HFile) (columns : Option (List String))
    (cuts : Option RowPred) :
    ∀ (dats : List Dataset) (ck : Option (List String)) (dfs : List DF)
      (ckF : Option (List String)),
      loadDataAux fs columns cuts dats ck = .ok (dfs, ckF) →
      ∀ df ∈ dfs, ∀ r ∈ df.rows, ∀ v ∈ r, v ≠ PVal.nan ∧ v ≠ PVal.pinf := by
  intro dats
  induction dats with
  | nil =>
      intro ck dfs ckF h df hdf
      simp only [loadDataAux, Except.ok.injEq, Prod.mk.injEq] at h
      obtain ⟨h1, _⟩ := h
      subst h1
      simp at hdf
  | cons d rest ih =>
      intro ck dfs ckF h df hdf
      obtain ⟨df1, dfs2, hstep, haux, rfl⟩ :=
        loadDataAux_cons_inv fs columns cuts d rest ck dfs ckF h
      rcases List.mem_cons.mp hdf with rfl | hmem
      · exact loadDataStep_no_nonfinite fs columns cuts d df hstep
      · exact ih (nextKeys ck df1) dfs2 ckF haux df hmem

theorem loadDataAux_filename_keys (fs : String → Option HFile) (columns : Option (List String))
    (cuts : Option RowPred) :
    ∀ (dats : List Dataset) (cc : List String) (dfs : List DF) (ckF : Option (List String)),
      "filename" ∈ cc →
      loadDataAux fs columns cuts dats (some cc) = .ok (dfs, ckF) →
      ∃ l, ckF = some l ∧ "filename" ∈ l := by
  intro dats
  induction dats with
  | nil =>
      intro cc dfs ckF hmem h
      simp only [loadDataAux, Except.ok.injEq, Prod.mk.injEq] at h
      exact ⟨cc, h.2.symm, hmem⟩
  | cons d rest ih =>
      intro cc dfs ckF hmem h
      obtain ⟨df1, dfs2, hstep, haux, rfl⟩ :=
        loadDataAux_cons_inv fs columns cuts d rest (some cc) dfs ckF h
      have hmem2 : "filename" ∈ cc.filter (fun c => df1.cols.contains c) := by
        rw [List.mem_filter]
        refine ⟨hmem, ?_⟩
        simp only [List.contains, List.elem_eq_mem, decide_eq_true_eq]
        exact loadDataStep_filename fs columns cuts d df1 hstep
      rw [show nextKeys (some cc) df1
          = some (cc.filter (fun c => df1.cols.contains c)) from rfl] at haux
      exact ih (cc.filter (fun c => df1.cols.contains c)) dfs2 ckF hmem2 haux

/-- Claim C4 (amended): after loading, no frame contains the missing
marker or positive infinity: `df.replace(np.inf, np.nan)` turns only
positive infinity into NaN and `dropna` removes all NaN rows.
Negative infinity is not replaced and can survive, so not every
returned value is finite. -/
theorem loadData_values_no_nan_no_posinf (fs : String → Option HFile) (dats : List Dataset)
    (columns : Option (List String)) (cuts : Option RowPred) (r : LoadResult)
    (h : loadData fs dats columns cuts = .ok r) :
    ∀ df ∈ r.df_list, ∀ row ∈ df.rows, ∀ v ∈ row, v ≠ PVal.nan ∧ v ≠ PVal.pinf := by
  cases haux : loadDataAux fs columns cuts dats none with
  | error e => simp [loadData, haux] at h
  | ok pr =>
      obtain ⟨dfs, ck⟩ := pr
      cases ck with
      | none => simp [loadData, haux] at h
      | some l =>
          simp only [loadData, haux, Except.ok.injEq] at h
          subst h
          intro df hdf
          exact loadDataAux_no_nonfinite fs columns cuts dats none dfs (some l) haux df hdf

/-- Claim C4, witness: the theorem applied to a concrete store whose
column holds the finite value 1 (plus rows that get dropped). -/
theorem loadData_values_no_nan_no_posinf_witness :
    PVal.num 1 ≠ PVal.nan ∧ PVal.num 1 ≠ PVal.pinf :=
  loadData_values_no_nan_no_posinf fsC [datC] (some ["x"]) none
    ⟨[⟨["x", "filename"], [[.num 1, .str "c"], [.ninf, .str "c"]]⟩],
      ["c.hdf5"], [1], ["data"], ["filename", "x"]⟩
    (by rfl) ⟨["x", "filename"], [[.num 1, .str "c"], [.ninf, .str "c"]]⟩ (by simp)
    [.num 1, .str "c"] (by simp) (.num 1) (by simp)

/-- Claim C4, counterexample: a negative infinity in the store passes
through `loadData` untouched — the returned frame still contains a
non-finite value, so the claim that every returned value is finite is
false. -/
theorem loadData_ninf_survives :
    (loadData fsC [datC] (some ["x"]) none).map
        (fun r => r.df_list.any (fun df => df.rows.any (fun row => row.any PVal.isNonFinite)))
      = .ok true := by rfl

/-- Claim C10: whenever `loadData` succeeds, the synthetic `filename`
column attached to every frame makes `filename` a member of the
returned common keys, although no input store exposes it. -/
theorem loadData_common_keys_filename (fs : String → Option HFile) (dats : List Dataset)
    (columns : Option (List String)) (cuts : Option RowPred) (r : LoadResult)
    (h : loadData fs dats columns cuts = .ok r) : "filename" ∈ r.common_keys := by
  cases haux0 : loadDataAux fs columns cuts dats none with
  | error e => simp [loadData, haux0] at h
  | ok pr =>
      obtain ⟨dfs, ck⟩ := pr
      cases ck with
      | none => simp [loadData, haux0] at h
      | some l =>
          simp only [loadData, haux0, Except.ok.injEq] at h
          subst h
          cases dats with
          | nil => simp [loadDataAux] at haux0
          | cons d rest =>
              obtain ⟨df1, dfs2, hstep, haux, rfl⟩ :=
                loadDataAux_cons_inv fs columns cuts d rest none dfs (some l) haux0
              have hmem1 : "filename" ∈ df1.cols :=
                loadDataStep_filename fs columns cuts d df1 hstep
              rw [show nextKeys none df1 = some df1.cols from rfl] at haux
              obtain ⟨l2, hl2, hfl⟩ :=
                loadDataAux_filename_keys fs columns cuts rest df1.cols dfs2 (some l) hmem1 haux
              have hll : l = l2 := by injection hl2
              exact ((pySorted_perm l).mem_iff).mpr (hll ▸ hfl)

/-- Claim C10, witness: the theorem applied to the concrete store,
where the returned keys are `[filename, x]`. -/
theorem loadData_common_keys_filename_witness :
    "filename" ∈ (["filename", "x"] : List String) :=
  loadData_common_keys_filename fsC [datC] (some ["x"]) none
    ⟨[⟨["x", "filename"], [[.num 1, .str "c"], [.ninf, .str "c"]]⟩],
      ["c.hdf5"], [1], ["data"], ["filename", "x"]⟩ (by rfl)

/-- Claim C5 (amended): the reconciled column sequence returned by
`loadData` is sorted in case-sensitive code-point order (Python
`sorted` on strings), and the order is deterministic: re-running on
unchanged inputs returns the identical sequence, and any two
enumerations of the same key set sort to the identical sequence. -/
theorem loadData_keys_sorted_deterministic (fs : String → Option HFile) (dats : List Dataset)
    (columns : Option (List String)) (cuts : Option RowPred) (r : LoadResult)
    (h : loadData fs dats columns cuts = .ok r) :
    List.Sorted pyLeRel r.common_keys ∧
      loadData fs dats columns cuts = .ok r ∧
      ∀ l l2 : List String, List.Perm l l2 → pySorted l = pySorted l2 := by
  refine ⟨?_, h, pySorted_perm_eq⟩
  cases haux : loadDataAux fs columns cuts dats none with
  | error e => simp [loadData, haux] at h
  | ok pr =>
      obtain ⟨dfs, ck⟩ := pr
      cases ck with
      | none => simp [loadData, haux] at h
      | some l =>
          simp only [loadData, haux, Except.ok.injEq] at h
          subst h
          exact pySorted_sorted l

/-- Claim C5, witness: the theorem applied to the concrete store. -/
theorem loadData_keys_sorted_deterministic_witness :
    List.Sorted pyLeRel (["filename", "x"] : List String) ∧
      loadData fsC [datC] (some ["x"]) none =
        .ok ⟨[⟨["x", "filename"], [[.num 1, .str "c"], [.ninf, .str "c"]]⟩],
          ["c.hdf5"], [1], ["data"], ["filename", "x"]⟩ ∧
      ∀ l l2 : List String, List.Perm l l2 → pySorted l = pySorted l2 :=
  loadData_keys_sorted_deterministic fsC [datC] (some ["x"]) none
    ⟨[⟨["x", "filename"], [[.num 1, .str "c"], [.ninf, .str "c"]]⟩],
      ["c.hdf5"], [1], ["data"], ["filename", "x"]⟩ (by rfl)

/-- Claim C5, counterexample: the order is not case-insensitive.  With
columns `alpha` and `Zeta` the returned sequence is
`[Zeta, alpha, filename]`, although lowercased `zeta` sorts after
`alpha`; a case-insensitive sort would return `alpha` first. -/
theorem loadData_keys_not_case_insensitive :
    (loadData fsZ [datZ] (some ["alpha", "Zeta"]) none).map (fun r => r.common_keys)
        = .ok ["Zeta", "alpha", "filename"] ∧
      pyListLe ("Zeta".data.map Char.toLower) ("alpha".data.map Char.toLower) = false :=
  ⟨by rfl, by rfl⟩

theorem ite_lt_right_eq_max {α : Type _} [LinearOrder α] (a b : α) :
    (if a < b then b else a) = max a b := by
  split
  · exact (max_eq_right (le_of_lt (by assumption))).symm
  · exact (max_eq_left (le_of_not_lt (by assumption))).symm

theorem ite_lt_left_eq_min {α : Type _} [LinearOrder α] (a b : α) :
    (if b < a then b else a) = min a b := by
  split
  · exact (min_eq_right (le_of_lt (by assumption))).symm
  · exact (min_eq_left (le_of_not_lt (by assumption))).symm

theorem list_maximum_append {α : Type _} [LinearOrder α] (l₁ l₂ : List α) :
    (l₁ ++ l₂).maximum = max l₁.maximum l₂.maximum := by
  induction l₁ with
  | nil =>
      rw [List.nil_append, List.maximum_nil]
      exact (max_eq_right bot_le).symm
  | cons a t ih =>
      rw [List.cons_append, List.maximum_cons, List.maximum_cons, ih, max_assoc]

theorem list_minimum_append {α : Type _} [LinearOrder α] (l₁ l₂ : List α) :
    (l₁ ++ l₂).minimum = min l₁.minimum l₂.minimum := by
  induction l₁ with
  | nil =>
      rw [List.nil_append, List.minimum_nil]
      exact (min_eq_right le_top).symm
  | cons a t ih =>
      rw [List.cons_append, List.minimum_cons, List.minimum_cons, ih, min_assoc]

theorem calcRangeStep_eq (mn : WithTop ℚ) (mx : WithBot ℚ) (df : List ℚ) :
    calcRangeStep (mn, mx) df = (min mn df.minimum, max mx df.maximum) := by
  simp only [calcRangeStep]
  rw [ite_lt_right_eq_max mx df.maximum]
  rw [ite_lt_left_eq_min mn (df.minimum : WithTop ℚ)]

theorem calcDataRange_loop (l : List (List ℚ)) :
    ∀ mn mx, l.foldl calcRangeStep (mn, mx) =
      (min mn l.flatten.minimum, max mx l.flatten.maximum) := by
  induction l with
  | nil =>
      intro mn mx
      rw [List.foldl_nil, List.flatten_nil, List.minimum_nil, List.maximum_nil,
        min_eq_left le_top, max_eq_left bot_le]
  | cons df rest ih =>
      intro mn mx
      rw [List.foldl_cons, calcRangeStep_eq, ih, List.flatten_cons,
        list_minimum_append, list_maximum_append, min_assoc, max_assoc]

/-- Claim C2 (amended): when no fixed limits are supplied,
`calcDataRange` returns exactly the pair (global minimum, global
maximum) over all the values of all frames.  It performs no percentile
clipping whatsoever, so an outlier is returned as the limit
unchanged. -/
theorem calcDataRange_eq_global_min_max (df_list : List (List ℚ)) :
    calcDataRange df_list = (df_list.flatten.minimum, df_list.flatten.maximum) := by
  unfold calcDataRange
  rw [calcDataRange_loop]
  rw [min_eq_right le_top, max_eq_right bot_le]

/-- Claim C2, counterexample: for values uniform on [0, 100] plus one
outlier at 10000, the upper limit returned by `calcDataRange` is
exactly 10000, not strictly below it. -/
theorem calcDataRange_outlier_not_clipped :
    (calcDataRange [((List.range 101).map (fun n => (n : ℚ))) ++ [10000]]).2 = (10000 : ℚ) ∧
      ¬ ((calcDataRange [((List.range 101).map (fun n => (n : ℚ))) ++ [10000]]).2
          < ((10000 : ℚ) : WithBot ℚ)) := by
  constructor
  · decide
  · intro h
    rw [show (calcDataRange [((List.range 101).map (fun n => (n : ℚ))) ++ [10000]]).2
        = ((10000 : ℚ) : WithBot ℚ) from by decide] at h
    exact lt_irrefl _ h

/-- Claim C3: for observation datasets the weight equals 1 divided by
the total on-time in hours, the on-time being the sum of the `ontime`
field over all recorded runs; a zero on-time sum signals
`ConfigurationError` instead of dividing by zero. -/
theorem observationWeight_spec (runs : List ObsRun) :
    ((runs.map ObsRun.ontime).sum ≠ 0 →
      observationWeight runs = .ok (1 / ((runs.map ObsRun.ontime).sum / 3600))) ∧
      ((runs.map ObsRun.ontime).sum = 0 →
        ∃ m, observationWeight runs = .error (.ConfigurationError m)) := by
  constructor
  · intro h
    simp [observationWeight, h]
  · intro h
    exact ⟨"total ontime is zero", by simp [observationWeight, h]⟩

/-- Claim C3, witness: 3600 seconds of on-time over the recorded runs
give weight 1 per hour, and a zero on-time sum signals the
configuration error. -/
theorem observationWeight_spec_witness :
    observationWeight [⟨3600⟩] = .ok 1 ∧
      ∃ m, observationWeight [⟨0⟩] = .error (.ConfigurationError m) := by
  constructor
  · have h := (observationWeight_spec [⟨3600⟩]).1 (by norm_num)
    rw [h]
    norm_num
  · exact (observationWeight_spec [⟨0⟩]).2 (by norm_num)

/-- Claim C9: the per-dataset weight is memoized: a second call of
`weight_for` on the same label returns the identical weight, leaves
the weight table unchanged, and does not increase the energy-read
counter (no re-read of the energy column, no recomputed flux
integral). -/
theorem weight_for_memoized (compute : String → ℚ) (label : String) (st : WeightState) :
    weight_for compute label (weight_for compute label st).2
        = ((weight_for compute label st).1, (weight_for compute label st).2) ∧
      (weight_for compute label (weight_for compute label st).2).2.energyReads
        = (weight_for compute label st).2.energyReads := by
  cases hlk : st.cache.lookup label with
  | some w => simp [weight_for, hlk]
  | none => simp [weight_for, hlk, List.lookup]

/-- Claim C6 (code bug): the ignore filter iterates the characters of
the `ignorekeys` string, so it keeps the column `energy` although it
is listed to be ignored, and drops the column `e` although it is
not: `set(common_keys).difference(ignorekeys)` treats the string as
an iterable of characters instead of splitting it on commas as the
option help describes. -/
theorem applyIgnoreKeys_chars_not_keys :
    applyIgnoreKeys ["energy", "width", "e"] "energy" = ["energy", "width"] := by rfl

/-- Claim C7 (amended): every plottable column gets exactly one page,
and a warning is recorded for each (column, dataset) pair whose
histogramming raises: the failing curve is skipped, the loop
continues, and the page for the column is still emitted, because the
page-saving calls sit outside the per-dataset exception handler. -/
theorem runPlotLoop_pages_warnings (env : PlotEnv) :
    runPlotLoop env
      = (env.keys.filter (plottable env),
        (env.keys.filter (plottable env)).flatMap
          (fun k => (env.labels.filter (fun l => !env.histOk k l)).map (fun l => (k, l)))) := by
  unfold runPlotLoop
  have key : ∀ ks : List String, plotKeys env ks
      = (ks.filter (plottable env),
        (ks.filter (plottable env)).flatMap
          (fun k => (env.labels.filter (fun l => !env.histOk k l)).map (fun l => (k, l)))) := by
    intro ks
    induction ks with
    | nil => rfl
    | cons k rest ih =>
        simp only [plotKeys, ih]
        by_cases h1 : env.skipTuple k
        · simp [plottable, h1]
        · by_cases h2 : env.inDefaultPlots k
          · by_cases h3 : env.optionFalse k
            · simp [plottable, h1, h2, h3]
            · simp [plottable, h1, h2, h3]
          · simp [plottable, h1, h2]
  exact key env.keys

/-- Claim C7, counterexample: with columns `energy` and `bad_col` and
one dataset whose histogramming of `bad_col` raises, the warning is
recorded and the run continues, but the output still contains a page
for `bad_col`, contradicting the claim that no page for it appears. -/
theorem runPlotLoop_bad_col_page_present :
    runPlotLoop ⟨["energy", "bad_col"], ["data"], fun _ => true, fun _ => false,
        fun _ => false, fun k _ => !(k == "bad_col")⟩
      = (["energy", "bad_col"], [("bad_col", "data")]) ∧
      "bad_col" ∈ (runPlotLoop ⟨["energy", "bad_col"], ["data"], fun _ => true,
        fun _ => false, fun _ => false, fun k _ => !(k == "bad_col")⟩).1 :=
  ⟨by rfl, by decide⟩

theorem getCommonColumnsAux_error_of_bad (fs : String → Option HFile) :
    ∀ (dats : List Dataset) (common : Option (List String)),
      (∃ d ∈ dats, fs d.datafile = none ∨ tableOf fs d = none) →
      ∃ e, getCommonColumnsAux fs dats common = .error e := by
  intro dats
  induction dats with
  | nil =>
      intro common h
      obtain ⟨d, hd, _⟩ := h
      simp at hd
  | cons d rest ih =>
      intro common h
      cases hfs : fs d.datafile with
      | none => exact ⟨.osError d.datafile, by simp [getCommonColumnsAux, hfs]⟩
      | some f =>
          cases hlk : f.tables.lookup d.tablename with
          | none => exact ⟨.keyError d.tablename, by simp [getCommonColumnsAux, hfs, hlk]⟩
          | some t =>
              obtain ⟨d2, hd2, hbad⟩ := h
              rcases List.mem_cons.mp hd2 with rfl | hmem
              · exfalso
                rcases hbad with h1 | h1
                · rw [hfs] at h1
                  exact absurd h1 (by simp)
                · have htab : tableOf fs d2 = some t := by simp [tableOf, hfs, hlk]
                  rw [htab] at h1
                  exact absurd h1 (by simp)
              · cases common with
                | none =>
                    obtain ⟨e, he⟩ := ih (some t.cols) ⟨d2, hmem, hbad⟩
                    exact ⟨e, by simp only [getCommonColumnsAux, hfs, hlk]; exact he⟩
                | some cc =>
                    obtain ⟨e, he⟩ :=
                      ih (some (cc.filter (fun c => t.cols.contains c))) ⟨d2, hmem, hbad⟩
                    exact ⟨e, by simp only [getCommonColumnsAux, hfs, hlk]; exact he⟩

/-- Claim C8 (amended): if any dataset store cannot be opened or its
named table is absent, the whole run aborts with an error before any
page is emitted; the `loadData` KeyError handler, when reached,
produces the error naming the missing table, the dataset path and the
actually available table names — but the run-aborting failure for a
missing table surfaces earlier, in `getCommonColumns`, as a bare
KeyError naming only the missing table. -/
theorem mainModel_aborts_on_bad_dataset (fs : String → Option HFile) (dats : List Dataset)
    (cuts : Option RowPred) (ik : Option String) (p1 p2 p3 : String → Bool)
    (p4 : String → String → Bool)
    (hbad : ∃ d ∈ dats, fs d.datafile = none ∨ tableOf fs d = none) :
    (∃ e, mainModel fs dats cuts ik p1 p2 p3 p4 = .error e) ∧
      ∀ (d : Dataset) (f : HFile) (columns : Option (List String)),
        fs d.datafile = some f → f.tables.lookup d.tablename = none →
        loadDataStep fs columns cuts d
          = .error (.dataAccessError d.tablename d.datafile (f.tables.map Prod.fst)) := by
  constructor
  · obtain ⟨e, he⟩ := getCommonColumnsAux_error_of_bad fs dats none hbad
    exact ⟨e, by simp [mainModel, getCommonColumns, he]⟩
  · intro d f columns hfs hlk
    simp [loadDataStep, read_data, hfs, hlk]

/-- Claim C8, witness: the theorem applied to the concrete store whose
file lacks the `events` table. -/
theorem mainModel_aborts_on_bad_dataset_witness :
    (∃ e, mainModel fsR [datR] none none (fun _ => true) (fun _ => false)
        (fun _ => false) (fun _ _ => true) = .error e) ∧
      ∀ (d : Dataset) (f : HFile) (columns : Option (List String)),
        fsR d.datafile = some f → f.tables.lookup d.tablename = none →
        loadDataStep fsR columns none d
          = .error (.dataAccessError d.tablename d.datafile (f.tables.map Prod.fst)) :=
  mainModel_aborts_on_bad_dataset fsR [datR] none none (fun _ => true) (fun _ => false)
    (fun _ => false) (fun _ _ => true) ⟨datR, by simp, .inr (by rfl)⟩

/-- Claim C8, counterexample: with the `events` table absent the run
aborts with the bare `KeyError` of `getCommonColumns`, which names
only the missing table; the `DataAccessError` that would identify the
dataset path and list the available table names is never produced,
because reconciliation runs before `loadData`. -/
theorem mainModel_missing_table_bare_keyerror :
    mainModel fsR [datR] none none (fun _ => true) (fun _ => false) (fun _ => false)
        (fun _ _ => true)
      = .error (.keyError "events") ∧
      RunError.keyError "events"
        ≠ RunError.dataAccessError "events" "a.hdf5" ["runs"] :=
  ⟨by rfl, by decide⟩
